import Mathlib

/-!
Shallow embedding of the customcuts native host core (src/native_host/)
and proofs of the frozen specification claims.

Conventions of the embedding:
* Python floats (timestamps, scores, similarities) are modelled as `ℚ`
  (exact arithmetic; the code's logic is comparisons and additions,
  except cosine similarity which needs a real square root and is
  modelled in `ℝ`).
* Python `int` is `ℤ`; numpy `int32` values are wrapped explicitly.
* The opaque neural engines are inputs: a stitcher model takes the
  engine's returned segment list as a parameter, the detector model
  takes the chunk's computed detections as a parameter.
-/

/-! ## Python string primitives used by the duplicate-text heuristic -/

/-- ASCII whitespace as recognised by Python's `str.split()` / `str.strip()`
(the transcript texts involved are ASCII). -/
def isPySpace (c : Char) : Bool :=
  c = ' ' || c = '\t' || c = '\n' || c = '\r'

/-- Python `str.lower()` (ASCII case mapping). -/
def pyLower (s : String) : String :=
  String.mk (s.data.map Char.toLower)

/-- Python `str.strip()` on a character list: drop leading and trailing
whitespace. -/
def pyStripChars (l : List Char) : List Char :=
  ((l.dropWhile isPySpace).reverse.dropWhile isPySpace).reverse

/-- Python `str.strip()`. -/
def pyStrip (s : String) : String :=
  String.mk (pyStripChars s.data)

/-- Helper for Python `str.split()`: splits on whitespace runs, discarding
empty pieces.  `acc` holds the current word reversed. -/
def pyWordsAux : List Char → List Char → List (List Char)
  | [], acc => if acc.isEmpty then [] else [acc.reverse]
  | c :: cs, acc =>
    if isPySpace c then
      if acc.isEmpty then pyWordsAux cs [] else acc.reverse :: pyWordsAux cs []
    else
      pyWordsAux cs (c :: acc)

/-- Python `str.split()` with no argument. -/
def pyWords (s : String) : List String :=
  (pyWordsAux s.data []).map String.mk

/-! ## Transcript segments -/

/-- A raw segment as returned by an engine's `transcribe_with_segments`
(`{'start': .., 'end': .., 'text': ..}`); `stop` models the `end` key
(`end` is reserved in Lean). -/
structure RawSeg where
  start : ℚ
  stop : ℚ
  text : String
deriving DecidableEq

/-- An adjusted segment emitted by a streaming stitcher. -/
structure OutSeg where
  start : ℚ
  stop : ℚ
  text : String
deriving DecidableEq

/-! ## StreamingFasterWhisper (faster_whisper_engine.py, lines 121-213)

State: `last_end_time`, `last_text`.  The engine call inside
`process_chunk` is opaque; the model receives the engine's returned
segment list as the `result` argument. -/

structure FWStreamState where
  last_end_time : ℚ
  last_text : String
deriving DecidableEq

namespace StreamingFasterWhisper

/-- Embeds `StreamingFasterWhisper._is_duplicate` (lines 180-207), with
`self.last_text` passed explicitly. -/
def _is_duplicate (last_text text : String) : Bool :=
  if last_text = "" then false
  else
    let text_lower := pyStrip (pyLower text)
    let last_lower := pyStrip (pyLower last_text)
    if text_lower = last_lower then true
    else
      let text_words := pyWords text_lower
      let last_words := pyWords last_lower
      if text_words.length < 2 || last_words.length < 2 then false
      else
        let check_words := min 3 (min text_words.length last_words.length)
        text_words.take check_words == last_words.drop (last_words.length - check_words)

/-- The per-segment loop of `StreamingFasterWhisper.process_chunk`
(lines 153-178), as structural recursion over the engine's segments. -/
def processChunkAux (chunk_start_time : ℚ) :
    FWStreamState → List RawSeg → List OutSeg × FWStreamState
  | st, [] => ([], st)
  | st, seg :: rest =>
    let adjusted_start := chunk_start_time + seg.start
    let adjusted_end := chunk_start_time + seg.stop
    if st.last_end_time + 3/10 < adjusted_end then
      let seg_text := pyStrip seg.text
      if seg_text ≠ "" ∧ ¬ _is_duplicate st.last_text seg_text then
        let a := if adjusted_start < st.last_end_time then st.last_end_time
                 else adjusted_start
        let r := processChunkAux chunk_start_time ⟨adjusted_end, seg_text⟩ rest
        (⟨a, adjusted_end, seg_text⟩ :: r.1, r.2)
      else
        processChunkAux chunk_start_time st rest
    else
      processChunkAux chunk_start_time st rest

/-- Embeds `StreamingFasterWhisper.process_chunk` (lines 138-178): `result` is
the opaque engine's segment list for this chunk. -/
def process_chunk (st : FWStreamState) (chunk_start_time : ℚ)
    (result : List RawSeg) : List OutSeg × FWStreamState :=
  processChunkAux chunk_start_time st result

/-- A whole session: fold `process_chunk` over a list of
(chunk_start_time, engine result) pairs, starting from the constructor
state (`last_end_time = 0.0`, `last_text = ""`), concatenating outputs. -/
def runSession : FWStreamState → List (ℚ × List RawSeg) → List OutSeg × FWStreamState
  | st, [] => ([], st)
  | st, (cst, segs) :: rest =>
    let r1 := process_chunk st cst segs
    let r2 := runSession r1.2 rest
    (r1.1 ++ r2.1, r2.2)

end StreamingFasterWhisper

/-! ## StreamingWhisper (whisper_engine.py, lines 130-208) and
StreamingParakeet (parakeet_engine.py, lines 189-266)

Both classes have the same `process_chunk` body (only the default
`overlap_seconds` differs: 2.0 vs 1.0), so one embedding serves both.
`pending_audio` only influences control flow through its length, the
actual samples feed the opaque engine, whose transcription `result` is
an argument of the model. -/

structure WStreamState where
  pending_len : ℕ
  last_end_time : ℚ
deriving DecidableEq

namespace StreamingWhisper

/-- The per-segment loop of `StreamingWhisper.process_chunk`
(lines 188-202) / `StreamingParakeet.process_chunk` (lines 246-260):
keep a segment iff its adjusted start does not regress behind
`last_end_time`.  Returns the emitted segments and the updated
`last_end_time`. -/
def segLoop (effective_start_time : ℚ) : ℚ → List RawSeg → List OutSeg × ℚ
  | last_end_time, [] => ([], last_end_time)
  | last_end_time, seg :: rest =>
    let adjusted_start := effective_start_time + seg.start
    let adjusted_end := effective_start_time + seg.stop
    if last_end_time ≤ adjusted_start then
      let r := segLoop effective_start_time adjusted_end rest
      (⟨adjusted_start, adjusted_end, seg.text⟩ :: r.1, r.2)
    else
      segLoop effective_start_time last_end_time rest

/-- Embeds `StreamingWhisper.process_chunk` (lines 147-202) /
`StreamingParakeet.process_chunk` (lines 206-260).  `new_len` is the
sample count of the decoded new audio (stored as the next pending
tail); `result` is the engine transcription of the combined buffer. -/
def process_chunk (st : WStreamState) (new_len : ℕ)
    (chunk_start_time overlap_seconds : ℚ)
    (result : List RawSeg) : List OutSeg × WStreamState :=
  let effective_start_time :=
    if 0 < st.pending_len then chunk_start_time - overlap_seconds
    else chunk_start_time
  let r := segLoop effective_start_time st.last_end_time result
  (r.1, ⟨new_len, r.2⟩)

/-- A whole session from the constructor state (`pending_audio` empty,
`last_end_time = 0.0`); each chunk is (new audio length,
chunk_start_time, engine result). -/
def runSession (overlap_seconds : ℚ) :
    WStreamState → List (ℕ × ℚ × List RawSeg) → List OutSeg × WStreamState
  | st, [] => ([], st)
  | st, (n, cst, segs) :: rest =>
    let r1 := process_chunk st n cst overlap_seconds segs
    let r2 := runSession overlap_seconds r1.2 rest
    (r1.1 ++ r2.1, r2.2)

end StreamingWhisper

/-- The segment filter of claim C4 as amended, written from its words:
a returned segment is dropped exactly when its adjusted start time is
below the session's current `last_end_time`; an accepted segment
advances `last_end_time` to its adjusted end. -/
def dropRuleSpec (effective_start_time : ℚ) : ℚ → List RawSeg → List OutSeg
  | _, [] => []
  | last_end_time, seg :: rest =>
    if effective_start_time + seg.start < last_end_time then
      dropRuleSpec effective_start_time last_end_time rest
    else
      ⟨effective_start_time + seg.start, effective_start_time + seg.stop, seg.text⟩ ::
        dropRuleSpec effective_start_time (effective_start_time + seg.stop) rest

/-! ## Pattern detection data (pattern_engine.py) -/

/-- A detection result dict as built in `PatternDetector.process_chunk`
(lines 329-337 and 357-365). -/
structure Detection where
  pattern_id : String
  pattern_name : String
  pattern_duration : ℚ
  confidence : ℚ
  offset : ℤ
  method : String
  timestamp : ℚ
deriving DecidableEq

/-- One entry of `PatternDetector.consecutive_matches` (lines 384-388). -/
structure MatchState where
  start_time : ℚ
  last_time : ℚ
  detection : Detection
deriving DecidableEq

/-- One entry of the list returned by
`PatternDetector.get_confirmed_detections` (lines 402-406): the stored
detection with the `confirmed`, `match_duration`, `match_start` keys
added. -/
structure ConfirmedDetection where
  detection : Detection
  confirmed : Bool
  match_duration : ℚ
  match_start : ℚ
deriving DecidableEq

/-- A pattern dict supplied by the caller (spec section 3).  The
fingerprint/embedding payloads feed only the opaque engine comparisons,
which the detector model receives as inputs. -/
structure Pattern where
  id : String
  ptype : String
  name : String
  duration : ℚ
  threshold : ℚ
  fingerprint : Option (List ℤ)
  embedding : Option (List ℤ)
deriving DecidableEq

/-- The mutable state of a `PatternDetector` (lines 287-291):
`consecutive_matches` is the pattern-id-keyed dict, kept as an
association list in insertion order. -/
structure PatternDetectorState where
  patterns : List Pattern
  consecutive_matches : List (String × MatchState)
  min_match_duration : ℚ
deriving DecidableEq

namespace PatternDetector

/-- Embeds `PatternDetector.__init__` (lines 287-291): empty match dict,
`min_match_duration = 2.0`. -/
def init (patterns : List Pattern) : PatternDetectorState :=
  { patterns := patterns, consecutive_matches := [], min_match_duration := 2 }

/-- Embeds `PatternDetector.set_patterns` (lines 293-296). -/
def set_patterns (st : PatternDetectorState) (patterns : List Pattern) :
    PatternDetectorState :=
  { st with patterns := patterns, consecutive_matches := [] }

/-- The insert-or-update step of `_update_consecutive_matches`
(lines 381-391) for one detection. -/
def updateOne (ms : List (String × MatchState)) (d : Detection) (t : ℚ) :
    List (String × MatchState) :=
  match ms.lookup d.pattern_id with
  | some _ =>
    ms.map fun kv =>
      if kv.1 = d.pattern_id then (kv.1, { kv.2 with last_time := t, detection := d })
      else kv
  | none => ms ++ [(d.pattern_id, ⟨t, t, d⟩)]

/-- Embeds `PatternDetector._update_consecutive_matches` (lines 372-391):
drop entries whose pattern is absent from this chunk's detections, then
insert/refresh an entry per detection. -/
def _update_consecutive_matches (ms : List (String × MatchState))
    (detections : List Detection) (timestamp : ℚ) : List (String × MatchState) :=
  let detected_ids := detections.map fun d => d.pattern_id
  let kept := ms.filter fun kv => detected_ids.contains kv.1
  detections.foldl (fun acc d => updateOne acc d timestamp) kept

/-- Embeds `PatternDetector.get_confirmed_detections` (lines 393-408); the
`timestamp` argument is unused by the code and kept for fidelity. -/
def get_confirmed_detections (st : PatternDetectorState) (_timestamp : ℚ) :
    List ConfirmedDetection :=
  st.consecutive_matches.filterMap fun kv =>
    if st.min_match_duration ≤ kv.2.last_time - kv.2.start_time then
      some ⟨kv.2.detection, true, kv.2.last_time - kv.2.start_time, kv.2.start_time⟩
    else none

/-- Embeds `PatternDetector.reset` (lines 410-412). -/
def reset (st : PatternDetectorState) : PatternDetectorState :=
  { st with consecutive_matches := [] }

/-- Claim C2's scenario: process a chunk at each timestamp of `ts`, the
tracked pattern being detected (with detection `dgen t`) in every chunk,
starting from an empty match dict. -/
def runDetected (dgen : ℚ → Detection) (ts : List ℚ) : List (String × MatchState) :=
  ts.foldl (fun ms t => _update_consecutive_matches ms [dgen t] t) []

end PatternDetector

/-! ## PatternEngine.match_fingerprint (pattern_engine.py, lines 207-266)

The fingerprints are Python int lists converted with
`np.array(fp, dtype=np.int32)` (wrap to signed 32-bit).  The per-frame
bit count is `bin(x).count('1')` where `x` is a signed numpy int32:
for a negative value Python renders the sign and the binary magnitude,
so this counts the set bits of `|x|`, not of the 32-bit two's
complement pattern. -/

/-- Fuel-bounded binary population count (the values counted are below
`2 ^ 32`, so fuel 64 is ample); structural so it kernel-reduces. -/
def popCountFuel : ℕ → ℕ → ℕ
  | 0, _ => 0
  | fuel + 1, n => if n = 0 then 0 else n % 2 + popCountFuel fuel (n / 2)

/-- Computes `bin(x).count('1')` for a nonnegative integer below `2 ^ 32`. -/
def popCount32 (n : ℕ) : ℕ := popCountFuel 64 n

/-- Two's-complement 32-bit representation of an integer. -/
def toU32 (z : ℤ) : ℕ := (z % 4294967296).toNat

/-- Reinterpret a 32-bit pattern as a signed value. -/
def fromU32 (u : ℕ) : ℤ := if u < 2147483648 then (u : ℤ) else (u : ℤ) - 4294967296

/-- Embeds `np.int32` conversion (wraps modulo `2 ^ 32`). -/
def toI32 (z : ℤ) : ℤ := fromU32 (toU32 z)

/-- Embeds `np.bitwise_xor` on int32 values. -/
def xor32 (a b : ℤ) : ℤ := fromU32 (Nat.xor (toU32 a) (toU32 b))

/-- Python slice `l[:k]` for an integer `k` (a negative `k` counts from
the end, clamped at zero). -/
def pySliceTo (l : List ℤ) (k : ℤ) : List ℤ :=
  if 0 ≤ k then l.take k.toNat else l.take ((l.length : ℤ) + k).toNat

namespace PatternEngine

/-- The `f1` slice of one iteration of the offset loop of
`match_fingerprint` (lines 235-239). -/
def alignF1 (fp1_arr : List ℤ) (o : ℤ) : List ℤ :=
  if o < 0 then fp1_arr.drop (-o).toNat
  else pySliceTo fp1_arr ((fp1_arr.length : ℤ) - o)

/-- The `f2` slice of one iteration of the offset loop (lines 235-240):
`fp2_arr[:len1]` for a negative offset, `fp2_arr[offset:offset+len1]`
otherwise. -/
def alignF2 (fp2_arr : List ℤ) (o : ℤ) (len1 : ℕ) : List ℤ :=
  if o < 0 then fp2_arr.take len1
  else (fp2_arr.drop o.toNat).take len1

/-- Lines 251-257: XOR the aligned frames and sum
`bin(x).count('1')` over them. -/
def diffBits (t1 t2 : List ℤ) : ℕ :=
  (List.zipWith (fun x y => popCount32 (Int.natAbs (xor32 x y))) t1 t2).sum

/-- The body of one iteration of the offset loop of `match_fingerprint`
(lines 234-260): the similarity at offset `o`, or `none` when the
aligned slices are empty (`min_len == 0`, the loop's `continue`). -/
def simAt (fp1 fp2 : List ℤ) (o : ℤ) : Option ℚ :=
  let f1 := alignF1 (fp1.map toI32) o
  let f2 := alignF2 (fp2.map toI32) o f1.length
  let min_len := min f1.length f2.length
  if min_len = 0 then none
  else some (1 - (diffBits (f1.take min_len) (f2.take min_len) : ℚ) / (32 * min_len))

/-- The offset loop of `match_fingerprint` (lines 230-264): scan `count`
consecutive offsets starting at `o` in ascending order, updating
`(best_score, best_offset)` on strict improvement. -/
def scanOffsets (fp1 fp2 : List ℤ) : ℕ → ℤ → ℚ × ℤ → ℚ × ℤ
  | 0, _, best => best
  | count + 1, o, best =>
    scanOffsets fp1 fp2 count (o + 1)
      (match simAt fp1 fp2 o with
       | none => best
       | some s => if best.1 < s then (s, o) else best)

/-- Embeds `PatternEngine.match_fingerprint` (lines 207-266): offsets range
over `range(-max_offset, max_offset + 1)`; `(0.0, 0)` when either
fingerprint is empty. -/
def match_fingerprint (fp1 fp2 : List ℤ) (max_offset : ℕ) : ℚ × ℤ :=
  if fp1.isEmpty || fp2.isEmpty then (0, 0)
  else scanOffsets fp1 fp2 (2 * max_offset + 1) (-(max_offset : ℤ)) (0, 0)

/-! ### Quantisation and cosine similarity (lines 185-205, 268-278) -/

/-- Embeds `np.abs(embedding).max()` (over a nonempty vector the extra `0`
seed does not change the value since all entries are absolute values). -/
def maxAbs (v : List ℚ) : ℚ := v.foldl (fun m x => max m |x|) 0

/-- numpy `astype(np.int8)` float-to-int conversion: truncation toward
zero (every value this model truncates lies in `[-127, 127]`, so the
int8 wrap never fires). -/
def ratTrunc (q : ℚ) : ℤ := if 0 ≤ q then ⌊q⌋ else ⌈q⌉

/-- Embeds `PatternEngine.quantize_embedding` (lines 185-199). -/
def quantize_embedding (v : List ℚ) : List ℤ :=
  let max_val := maxAbs v
  let normalized := if 0 < max_val then v.map (fun x => x / max_val) else v
  normalized.map fun x => ratTrunc (x * 127)

/-- Embeds `PatternEngine.dequantize_embedding` (lines 201-205). -/
def dequantize_embedding (q : List ℤ) : List ℚ := q.map fun (z : ℤ) => (z : ℚ) / 127

/-- Embeds `np.dot` on equal-length vectors. -/
def dotQ (a b : List ℚ) : ℚ := (List.zipWith (fun x y => x * y) a b).sum

/-- Squared Euclidean norm, so that `np.linalg.norm a = Real.sqrt (normSq a)`. -/
def normSq (a : List ℚ) : ℚ := dotQ a a

/-- Embeds `PatternEngine.cosine_similarity` (lines 268-278): `0.0` when either
norm is zero, else the standard cosine.  Needs `ℝ` for the square root. -/
noncomputable def cosine_similarity (a b : List ℚ) : ℝ :=
  let norm1 := Real.sqrt ((normSq a : ℚ) : ℝ)
  let norm2 := Real.sqrt ((normSq b : ℚ) : ℝ)
  if norm1 = 0 ∨ norm2 = 0 then 0
  else ((dotQ a b : ℚ) : ℝ) / (norm1 * norm2)

end PatternEngine


/-! ## Framed protocol reader (whisper_host.py, lines 90-127)

The byte stream is a list of byte values; `_native_read(n)` consumes
`min(n, available)` bytes.  The model returns the read payload (or
`none` for the end-of-stream result) together with the bytes left
unconsumed on the stream.  JSON decoding is outside the claims. -/

/-- Embeds `struct.unpack('<I', raw)[0]` on a 4-byte little-endian prefix. -/
def leUInt32 (b : List ℕ) : ℕ :=
  b.getD 0 0 + 256 * b.getD 1 0 + 65536 * b.getD 2 0 + 16777216 * b.getD 3 0

/-- Embeds `read_native_message` (lines 90-127) at the framing level:
`none` is the end-of-stream result. -/
def read_native_message (input : List ℕ) : Option (List ℕ) × List ℕ :=
  if input.length < 4 then (none, input.drop 4)
  else
    let raw_length := input.take 4
    let rest := input.drop 4
    let message_length := leUInt32 raw_length
    if 1048576 < message_length then (none, rest)
    else if rest.length < message_length then (none, rest.drop message_length)
    else (some (rest.take message_length), rest.drop message_length)

/-! ## Host dispatcher (whisper_host.py, lines 214-565)

The handler-visible global state is collected in `HostState`.  Values
produced by the opaque engines (the reply content of `learn_pattern`,
and the detection list that `PatternDetector.process_chunk` derives
from the audio) enter as an `EngineEnv` argument.  Threading is
represented by the flags the handlers read and set. -/

/-- A reply envelope; unused fields keep their defaults.  The
`shutdown_marker` field models the `{'_shutdown': True}` sentinel the
main loop checks. -/
structure Envl where
  type : String
  message : String := ""
  status : String := ""
  chunkId : String := ""
  engine : String := ""
  model : String := ""
  device : String := ""
  initialized : Bool := false
  pattern_count : ℕ := 0
  timestamp : ℚ := 0
  detections : List Detection := []
  confirmed : List ConfirmedDetection := []
  error : String := ""
  shutdown_marker : Bool := false
deriving DecidableEq

/-- An inbound message; `none` fields model absent keys, read by the
handlers with `message.get(key, default)`. -/
structure Msg where
  type : String
  engine : Option String := none
  model : Option String := none
  device : Option String := none
  audio : Option String := none
  timestamp : Option ℚ := none
  language : Option String := none
  chunkId : Option String := none
  patterns : Option (List Pattern) := none
  patternType : Option String := none
  name : Option String := none
deriving DecidableEq

/-- The session state of either streaming stitcher. -/
inductive StreamState where
  | fw (s : FWStreamState)
  | w (s : WStreamState)
deriving DecidableEq

/-- Embeds `StreamingFasterWhisper.reset` (lines 209-213) /
`StreamingWhisper.reset` (lines 204-208). -/
def streamReset : StreamState → StreamState
  | .fw _ => .fw ⟨0, ""⟩
  | .w _ => .w ⟨0, 0⟩

/-- The module-level mutable state of whisper_host.py that the handlers
read or write. -/
structure HostState where
  engine_type : String
  init_model : Option String
  init_device : Option String
  init_started : Bool
  engine_loaded : Bool
  streaming : Option StreamState
  transcribe_queue : List String
  pattern_engine_loaded : Bool
  pattern_init_started : Bool
  pattern_init_error : Option String
  pattern_detector : Option PatternDetectorState
deriving DecidableEq

/-- Engine-derived values consumed by the handlers. -/
structure EngineEnv where
  learn_reply : Envl
  detections : List Detection

/-- Embeds `handle_init` (lines 214-242). -/
def handle_init (m : Msg) (st : HostState) : Envl × HostState :=
  let et := m.engine.getD "faster-whisper"
  let model := m.model.getD
    (if et = "parakeet" then "nvidia/parakeet-tdt-0.6b-v3" else "large-v3")
  let device := m.device.getD "cuda"
  ({ type := "ready", engine := et, model := model, device := device,
     status := "loading" },
   { st with engine_type := et, init_model := some model,
             init_device := some device, init_started := true })

/-- Embeds `handle_transcribe` (lines 306-325): enqueue and acknowledge. -/
def handle_transcribe (m : Msg) (st : HostState) : Envl × HostState :=
  let chunk_id := m.chunkId.getD ""
  ({ type := "transcribe_ack", chunkId := chunk_id, status := "queued" },
   { st with transcribe_queue := st.transcribe_queue ++ [chunk_id] })

/-- Embeds `handle_reset` (lines 328-337). -/
def handle_reset (_m : Msg) (st : HostState) : Envl × HostState :=
  ({ type := "reset_complete" },
   { st with streaming := st.streaming.map streamReset })

/-- Embeds `handle_ping` (lines 340-345). -/
def handle_ping (_m : Msg) (st : HostState) : Envl × HostState :=
  ({ type := "pong", initialized := st.engine_loaded }, st)

/-- Embeds `handle_init_patterns` (lines 381-398). -/
def handle_init_patterns (m : Msg) (st : HostState) : Envl × HostState :=
  let patterns := m.patterns.getD []
  let st' :=
    if ¬ st.pattern_engine_loaded ∧ ¬ st.pattern_init_started then
      { st with pattern_init_started := true }
    else st
  ({ type := "patterns_ready", pattern_count := patterns.length,
     status := if st.pattern_engine_loaded then "ready" else "loading" }, st')

/-- Embeds `handle_learn_pattern` (lines 401-473): the learning computation is
engine work, its reply enters through `io`; the host state is untouched. -/
def handle_learn_pattern (io : EngineEnv) (_m : Msg) (st : HostState) :
    Envl × HostState :=
  match st.pattern_init_error with
  | some e =>
    ({ type := "error", message := "Pattern engine initialization failed: " ++ e }, st)
  | none =>
    if ¬ st.pattern_engine_loaded then
      ({ type := "error", message := "Pattern engine not initialized" }, st)
    else (io.learn_reply, st)

/-- The create-or-update step of `handle_detect` (lines 497-501):
construct a fresh detector, or `set_patterns` on the existing one. -/
def handleDetectSetup (prev : Option PatternDetectorState)
    (patterns : List Pattern) : PatternDetectorState :=
  match prev with
  | none => PatternDetector.init patterns
  | some st => PatternDetector.set_patterns st patterns

/-- Embeds `handle_detect` (lines 476-526): the detection list computed from
the audio is engine work and enters through `io`; the consecutive-match
update and the confirmed query follow pattern_engine.py. -/
def handle_detect (io : EngineEnv) (m : Msg) (st : HostState) : Envl × HostState :=
  if st.pattern_init_error ≠ none ∨ ¬ st.pattern_engine_loaded then
    ({ type := "detections", error := "Pattern engine not available" }, st)
  else
    let timestamp := m.timestamp.getD 0
    let patterns := m.patterns.getD []
    let d0 := handleDetectSetup st.pattern_detector patterns
    let d1 := { d0 with consecutive_matches :=
      (PatternDetector._update_consecutive_matches d0.consecutive_matches
        io.detections timestamp) }
    let confirmed := PatternDetector.get_confirmed_detections d1 timestamp
    ({ type := "detections", timestamp := timestamp,
       detections := io.detections, confirmed := confirmed },
     { st with pattern_detector := some d1 })

/-- Embeds `handle_reset_patterns` (lines 529-538). -/
def handle_reset_patterns (_m : Msg) (st : HostState) : Envl × HostState :=
  ({ type := "patterns_reset" },
   { st with pattern_detector := st.pattern_detector.map PatternDetector.reset })

/-- Embeds `handle_message` (lines 541-565): the dict lookup over the nine
recognised types, with the unknown-type fallthrough. -/
def handle_message (io : EngineEnv) (m : Msg) (st : HostState) : Envl × HostState :=
  if m.type = "init" then handle_init m st
  else if m.type = "transcribe" then handle_transcribe m st
  else if m.type = "reset" then handle_reset m st
  else if m.type = "ping" then handle_ping m st
  else if m.type = "shutdown" then ({ type := "", shutdown_marker := true }, st)
  else if m.type = "init_patterns" then handle_init_patterns m st
  else if m.type = "learn_pattern" then handle_learn_pattern io m st
  else if m.type = "detect" then handle_detect io m st
  else if m.type = "reset_patterns" then handle_reset_patterns m st
  else ({ type := "error", message := "Unknown message type: " ++ m.type }, st)

/-! # Theorems -/

/-! ## C9 — oversized frame rejection -/

/-- C9: for every frame whose 4-byte little-endian declared length
exceeds 1 MiB, `read_native_message` returns the end-of-stream result
(`none`) and consumes only the 4 prefix bytes, leaving the declared
payload bytes unread on the stream. -/
theorem C9_oversized_frame (input : List ℕ) (h4 : 4 ≤ input.length)
    (hlen : 1048576 < leUInt32 (input.take 4)) :
    read_native_message input = (none, input.drop 4) := by
  simp only [read_native_message]
  rw [if_neg (by omega), if_pos hlen]

/-- Witness for C9 at a concrete frame: declared length 1048577. -/
theorem C9_oversized_frame_wit :
    read_native_message [1, 0, 16, 0, 7] = (none, [7]) :=
  C9_oversized_frame [1, 0, 16, 0, 7] (by decide) (by decide)

/-! ## C10 — unknown message handling -/

/-- C10: an envelope whose type is none of the nine recognised types is
answered by an `error` envelope whose message contains the offending
type name; the reply is not the shutdown sentinel and the entire host
state is unchanged. -/
theorem C10_unknown_message (io : EngineEnv) (m : Msg) (st : HostState)
    (h : m.type ∉ ["init", "transcribe", "reset", "ping", "shutdown",
      "init_patterns", "learn_pattern", "detect", "reset_patterns"]) :
    handle_message io m st =
      ({ type := "error", message := "Unknown message type: " ++ m.type }, st) ∧
    (∃ pre suf, "Unknown message type: " ++ m.type = pre ++ m.type ++ suf) ∧
    (handle_message io m st).1.shutdown_marker = false ∧
    (handle_message io m st).2 = st := by
  simp only [List.mem_cons, List.not_mem_nil, or_false] at h
  push_neg at h
  obtain ⟨h1, h2, h3, h4, h5, h6, h7, h8, h9⟩ := h
  have he : handle_message io m st =
      ({ type := "error", message := "Unknown message type: " ++ m.type }, st) := by
    simp only [handle_message, if_neg h1, if_neg h2, if_neg h3, if_neg h4,
      if_neg h5, if_neg h6, if_neg h7, if_neg h8, if_neg h9]
  refine ⟨he, ⟨"Unknown message type: ", "", by simp⟩, ?_, ?_⟩
  · rw [he]
  · rw [he]

/-- Witness for C10: the message type `frobnicate`. -/
theorem C10_unknown_message_wit :
    handle_message ⟨{ type := "" }, []⟩ { type := "frobnicate" }
        ⟨"faster-whisper", none, none, false, false, none, [], false, false, none, none⟩ =
      ({ type := "error", message := "Unknown message type: " ++ "frobnicate" },
       ⟨"faster-whisper", none, none, false, false, none, [], false, false, none, none⟩) ∧
    (∃ pre suf, "Unknown message type: " ++ "frobnicate" = pre ++ "frobnicate" ++ suf) ∧
    (handle_message ⟨{ type := "" }, []⟩ { type := "frobnicate" }
        ⟨"faster-whisper", none, none, false, false, none, [], false, false, none, none⟩).1.shutdown_marker
      = false ∧
    (handle_message ⟨{ type := "" }, []⟩ { type := "frobnicate" }
        ⟨"faster-whisper", none, none, false, false, none, [], false, false, none, none⟩).2 =
      ⟨"faster-whisper", none, none, false, false, none, [], false, false, none, none⟩ :=
  C10_unknown_message _ _ _ (by decide)

/-! ## C3 — set_patterns clears consecutive-match tracking -/

/-- Every match-state entry produced by one `updateOne` step at
timestamp `t` from entries that all carry times `t` again carries
`start_time = last_time = t`. -/
theorem updateOne_times (t : ℚ) (ms : List (String × MatchState)) (d : Detection)
    (hms : ∀ kv ∈ ms, kv.2.start_time = t ∧ kv.2.last_time = t) :
    ∀ kv ∈ PatternDetector.updateOne ms d t,
      kv.2.start_time = t ∧ kv.2.last_time = t := by
  intro kv hkv
  unfold PatternDetector.updateOne at hkv
  cases hlook : ms.lookup d.pattern_id with
  | some x =>
    rw [hlook] at hkv
    obtain ⟨kv0, hkv0, hfkv⟩ := List.mem_map.mp hkv
    by_cases hid : kv0.1 = d.pattern_id
    · rw [if_pos hid] at hfkv
      have := hms kv0 hkv0
      rw [← hfkv]
      exact ⟨this.1, rfl⟩
    · rw [if_neg hid] at hfkv
      rw [← hfkv]
      exact hms kv0 hkv0
  | none =>
    rw [hlook] at hkv
    rcases List.mem_append.mp hkv with hin | hin
    · exact hms kv hin
    · rcases List.mem_singleton.mp hin with rfl
      exact ⟨rfl, rfl⟩

/-- Folding `updateOne` at timestamp `t` over any detection list
preserves "all entries carry times `t`". -/
theorem foldl_updateOne_times (t : ℚ) :
    ∀ (dets : List Detection) (ms : List (String × MatchState)),
      (∀ kv ∈ ms, kv.2.start_time = t ∧ kv.2.last_time = t) →
      ∀ kv ∈ dets.foldl (fun acc d => PatternDetector.updateOne acc d t) ms,
        kv.2.start_time = t ∧ kv.2.last_time = t := by
  intro dets
  induction dets with
  | nil => intro ms hms kv hkv; exact hms kv hkv
  | cons d rest ih =>
    intro ms hms kv hkv
    exact ih (PatternDetector.updateOne ms d t) (updateOne_times t ms d hms) kv hkv

/-- Every entry of a consecutive-match dict rebuilt from empty at
timestamp `t` has `start_time = last_time = t`. -/
theorem update_from_empty_times (dets : List Detection) (t : ℚ) :
    ∀ kv ∈ PatternDetector._update_consecutive_matches [] dets t,
      kv.2.start_time = t ∧ kv.2.last_time = t := by
  intro kv hkv
  unfold PatternDetector._update_consecutive_matches at hkv
  simp only [List.filter_nil] at hkv
  exact foldl_updateOne_times t dets [] (by intro kv h; cases h) kv hkv

/-- The detector used by `handle_detect` always starts the chunk with an
empty consecutive-match dict (fresh construction or `set_patterns`). -/
theorem handleDetectSetup_matches (prev : Option PatternDetectorState)
    (ps : List Pattern) :
    (handleDetectSetup prev ps).consecutive_matches = [] := by
  cases prev with
  | none => rfl
  | some st => rfl

/-- C3: `set_patterns` replaces the pattern list and empties the
consecutive-match dict; since `handle_detect` routes every request
through `handleDetectSetup` (fresh detector or `set_patterns`), no
match tracking survives into a detect request: every tracked entry
after a successful `handle_detect` started at that request's own
timestamp. -/
theorem C3_set_patterns_clears :
    (∀ (st : PatternDetectorState) (ps : List Pattern),
       (PatternDetector.set_patterns st ps).patterns = ps ∧
       (PatternDetector.set_patterns st ps).consecutive_matches = []) ∧
    (∀ (prev : Option PatternDetectorState) (ps : List Pattern),
       (handleDetectSetup prev ps).consecutive_matches = []) ∧
    (∀ (io : EngineEnv) (m : Msg) (st : HostState),
       st.pattern_init_error = none → st.pattern_engine_loaded = true →
       ∃ d', (handle_detect io m st).2.pattern_detector = some d' ∧
         ∀ kv ∈ d'.consecutive_matches,
           kv.2.start_time = m.timestamp.getD 0 ∧
           kv.2.last_time = m.timestamp.getD 0) := by
  refine ⟨fun st ps => ⟨rfl, rfl⟩, handleDetectSetup_matches, ?_⟩
  intro io m st herr hload
  have hcond : ¬ (st.pattern_init_error ≠ none ∨ ¬ st.pattern_engine_loaded) := by
    simp [herr, hload]
  have heq : (handle_detect io m st).2.pattern_detector =
      some { handleDetectSetup st.pattern_detector (m.patterns.getD []) with
             consecutive_matches :=
               (PatternDetector._update_consecutive_matches
                 (handleDetectSetup st.pattern_detector (m.patterns.getD [])).consecutive_matches
                 io.detections (m.timestamp.getD 0)) } := by
    simp only [handle_detect, if_neg hcond]
  refine ⟨_, heq, ?_⟩
  intro kv hkv
  simp only [handleDetectSetup_matches] at hkv
  exact update_from_empty_times _ _ kv hkv

/-- Witness for C3 at a concrete detect request against a host state
that already tracks a stale match. -/
theorem C3_set_patterns_clears_wit :
    ∃ d', (handle_detect ⟨{ type := "" }, []⟩ { type := "detect" }
        ⟨"faster-whisper", none, none, false, false, none, [], true, false, none,
         some ⟨[], [("old", ⟨5, 7, ⟨"old", "n", 0, 1, 0, "fingerprint", 7⟩⟩)], 2⟩⟩).2.pattern_detector
      = some d' ∧
      ∀ kv ∈ d'.consecutive_matches,
        kv.2.start_time = (({ type := "detect" } : Msg).timestamp.getD 0) ∧
        kv.2.last_time = (({ type := "detect" } : Msg).timestamp.getD 0) :=
  C3_set_patterns_clears.2.2 _ _ _ rfl rfl

/-! ## C2 — confirmation timing -/

/-- One detection chunk updates a singleton match dict keyed by the same
pattern: `last_time` and `detection` refresh, `start_time` survives. -/
theorem update_singleton (p : String) (s l t : ℚ) (dOld dNew : Detection)
    (hid : dNew.pattern_id = p) :
    PatternDetector._update_consecutive_matches [(p, ⟨s, l, dOld⟩)] [dNew] t =
      [(p, ⟨s, t, dNew⟩)] := by
  simp [PatternDetector._update_consecutive_matches, PatternDetector.updateOne,
    hid, List.lookup]

/-- One detection chunk against an empty match dict creates the entry
with `start_time = last_time = t`. -/
theorem update_empty_single (d : Detection) (t : ℚ) :
    PatternDetector._update_consecutive_matches [] [d] t =
      [(d.pattern_id, ⟨t, t, d⟩)] := by
  simp [PatternDetector._update_consecutive_matches, PatternDetector.updateOne,
    List.lookup]

/-- Folding continuous detections of one pattern over timestamps `ts`
starting from a singleton entry keeps `start_time` and moves `last_time`
to the final timestamp. -/
theorem detected_fold_ne (p : String) (dgen : ℚ → Detection)
    (hid : ∀ t, (dgen t).pattern_id = p) :
    ∀ (ts : List ℚ) (h : ts ≠ []) (s l : ℚ) (d : Detection),
      List.foldl (fun ms t => PatternDetector._update_consecutive_matches ms [dgen t] t)
          [(p, ⟨s, l, d⟩)] ts =
        [(p, ⟨s, ts.getLast h, dgen (ts.getLast h)⟩)] := by
  intro ts
  induction ts with
  | nil => intro h; exact absurd rfl h
  | cons t rest ih =>
    intro h s l d
    cases rest with
    | nil =>
      simp only [List.foldl_cons, List.foldl_nil]
      rw [update_singleton p s l t d (dgen t) (hid t)]
      simp [List.getLast]
    | cons t2 r2 =>
      rw [List.foldl_cons]
      rw [update_singleton p s l t d (dgen t) (hid t)]
      rw [ih (List.cons_ne_nil t2 r2) s t (dgen t)]
      simp [List.getLast_cons]

/-- A pattern detected in every chunk at timestamps `t0 :: ts` is
tracked with `start_time = t0` and `last_time` the final timestamp. -/
theorem runDetected_eq (p : String) (dgen : ℚ → Detection)
    (hid : ∀ t, (dgen t).pattern_id = p) (t0 : ℚ) (ts : List ℚ) :
    PatternDetector.runDetected dgen (t0 :: ts) =
      [(p, ⟨t0, (t0 :: ts).getLast (List.cons_ne_nil t0 ts),
            dgen ((t0 :: ts).getLast (List.cons_ne_nil t0 ts))⟩)] := by
  unfold PatternDetector.runDetected
  rw [List.foldl_cons]
  rw [show PatternDetector._update_consecutive_matches [] [dgen t0] t0 =
      [(p, ⟨t0, t0, dgen t0⟩)] from by rw [update_empty_single, hid t0]]
  cases ts with
  | nil => simp [List.getLast]
  | cons t2 r2 =>
    rw [detected_fold_ne p dgen hid (t2 :: r2) (List.cons_ne_nil t2 r2) t0 t0 (dgen t0)]
    simp [List.getLast_cons]

/-- C2: with the default `min_match_duration = 2.0`, a pattern detected
in every processed chunk at timestamps `t0 :: ts` is absent from
`get_confirmed_detections` while `lastTime - startTime < 2`, and
reported exactly when `lastTime - startTime ≥ 2`, with `match_duration`
equal to `lastTime - startTime` and `match_start` the first timestamp
(the query's own timestamp argument `tq` is irrelevant). -/
theorem C2_confirmation_timing (p : String) (dgen : ℚ → Detection)
    (hid : ∀ t, (dgen t).pattern_id = p) (t0 : ℚ) (ts : List ℚ)
    (patterns : List Pattern) (tq : ℚ) :
    (((t0 :: ts).getLast (List.cons_ne_nil t0 ts)) - t0 < 2 →
      PatternDetector.get_confirmed_detections
        { PatternDetector.init patterns with
          consecutive_matches := PatternDetector.runDetected dgen (t0 :: ts) } tq = []) ∧
    (2 ≤ ((t0 :: ts).getLast (List.cons_ne_nil t0 ts)) - t0 →
      PatternDetector.get_confirmed_detections
        { PatternDetector.init patterns with
          consecutive_matches := PatternDetector.runDetected dgen (t0 :: ts) } tq =
        [⟨dgen ((t0 :: ts).getLast (List.cons_ne_nil t0 ts)), true,
          ((t0 :: ts).getLast (List.cons_ne_nil t0 ts)) - t0, t0⟩]) := by
  constructor
  · intro hlt
    unfold PatternDetector.get_confirmed_detections
    rw [runDetected_eq p dgen hid]
    simp only [PatternDetector.init, List.filterMap_cons, List.filterMap_nil]
    rw [if_neg (not_le.mpr hlt)]
  · intro hge
    unfold PatternDetector.get_confirmed_detections
    rw [runDetected_eq p dgen hid]
    simp only [PatternDetector.init, List.filterMap_cons, List.filterMap_nil]
    rw [if_pos hge]

/-- Witness for C2: detections at timestamps `[0, 1]` (duration 1) are
never confirmed; at `[0, 3]` (duration 3 ≥ 2) the pattern is confirmed
with `match_duration = 3` and `match_start = 0`. -/
theorem C2_confirmation_timing_wit :
    PatternDetector.get_confirmed_detections
      { PatternDetector.init [] with
        consecutive_matches :=
          PatternDetector.runDetected
            (fun t => ⟨"p1", "n", 0, 1, 0, "fingerprint", t⟩) [0, 1] } 5 = [] ∧
    PatternDetector.get_confirmed_detections
      { PatternDetector.init [] with
        consecutive_matches :=
          PatternDetector.runDetected
            (fun t => ⟨"p1", "n", 0, 1, 0, "fingerprint", t⟩) [0, 3] } 5 =
      [⟨⟨"p1", "n", 0, 1, 0, "fingerprint", 3⟩, true, 3, 0⟩] := by
  constructor
  · exact (C2_confirmation_timing "p1"
      (fun t => ⟨"p1", "n", 0, 1, 0, "fingerprint", t⟩) (fun t => rfl) 0 [1] [] 5).1
      (by norm_num [List.getLast])
  · have h := (C2_confirmation_timing "p1"
      (fun t => ⟨"p1", "n", 0, 1, 0, "fingerprint", t⟩) (fun t => rfl) 0 [3] [] 5).2
      (by norm_num [List.getLast])
    simpa [List.getLast] using h

/-! ## C1 — duplicate suppression at a chunk boundary -/

/-- Unfolding lemma: `processChunkAux` on the empty segment list. -/
theorem fw_nil (cst : ℚ) (st : FWStreamState) :
    StreamingFasterWhisper.processChunkAux cst st [] = ([], st) := rfl

/-- Unfolding lemma: an emitted segment (time filter passes, text kept). -/
theorem fw_cons_emit (cst : ℚ) (st : FWStreamState) (seg : RawSeg)
    (rest : List RawSeg)
    (h1 : st.last_end_time + 3/10 < cst + seg.stop)
    (h2 : pyStrip seg.text ≠ "" ∧
      ¬ StreamingFasterWhisper._is_duplicate st.last_text (pyStrip seg.text)) :
    StreamingFasterWhisper.processChunkAux cst st (seg :: rest) =
      (⟨if cst + seg.start < st.last_end_time then st.last_end_time
        else cst + seg.start, cst + seg.stop, pyStrip seg.text⟩ ::
         (StreamingFasterWhisper.processChunkAux cst
           ⟨cst + seg.stop, pyStrip seg.text⟩ rest).1,
       (StreamingFasterWhisper.processChunkAux cst
         ⟨cst + seg.stop, pyStrip seg.text⟩ rest).2) := by
  simp only [StreamingFasterWhisper.processChunkAux]
  rw [if_pos h1, if_pos h2]

/-- Unfolding lemma: a segment skipped by the time filter. -/
theorem fw_cons_skip_time (cst : ℚ) (st : FWStreamState) (seg : RawSeg)
    (rest : List RawSeg)
    (h1 : ¬ (st.last_end_time + 3/10 < cst + seg.stop)) :
    StreamingFasterWhisper.processChunkAux cst st (seg :: rest) =
      StreamingFasterWhisper.processChunkAux cst st rest := by
  simp only [StreamingFasterWhisper.processChunkAux]
  rw [if_neg h1]

/-- Unfolding lemma: a segment suppressed by the text check. -/
theorem fw_cons_skip_text (cst : ℚ) (st : FWStreamState) (seg : RawSeg)
    (rest : List RawSeg)
    (h1 : st.last_end_time + 3/10 < cst + seg.stop)
    (h2 : ¬ (pyStrip seg.text ≠ "" ∧
      ¬ StreamingFasterWhisper._is_duplicate st.last_text (pyStrip seg.text))) :
    StreamingFasterWhisper.processChunkAux cst st (seg :: rest) =
      StreamingFasterWhisper.processChunkAux cst st rest := by
  simp only [StreamingFasterWhisper.processChunkAux]
  rw [if_pos h1, if_neg h2]

/-- Evaluation of the claim's concrete scenario: chunk A emits
`"see the cat"` (segment 0-2 s); chunk B starts at 1.5 s and its raw
segment (0.6-2.0 s within the chunk, text `"the cat ran away"`) passes
both the time filter and the duplicate check, so it is emitted whole. -/
theorem fwScenarioEval :
    (StreamingFasterWhisper.runSession ⟨0, ""⟩
        [(0, [⟨0, 2, "see the cat"⟩]), (3/2, [⟨3/5, 2, "the cat ran away"⟩])]).1 =
      [⟨0, 2, "see the cat"⟩, ⟨21/10, 7/2, "the cat ran away"⟩] := by
  have hs1 : pyStrip "see the cat" = "see the cat" := by decide
  have hs2 : pyStrip "the cat ran away" = "the cat ran away" := by decide
  simp only [StreamingFasterWhisper.runSession, StreamingFasterWhisper.process_chunk]
  rw [fw_cons_emit 0 ⟨0, ""⟩ ⟨0, 2, "see the cat"⟩ [] (by norm_num)
      (by rw [hs1]; exact ⟨by decide, by decide⟩)]
  rw [fw_nil]
  rw [fw_cons_emit (3/2) ⟨0 + 2, pyStrip "see the cat"⟩ ⟨3/5, 2, "the cat ran away"⟩ []
      (by norm_num) (by rw [hs1, hs2]; exact ⟨by decide, by decide⟩)]
  rw [fw_nil]
  simp only [List.cons_append, List.nil_append, List.cons.injEq, OutSeg.mk.injEq]
  rw [hs1, hs2]
  norm_num

/-- Emitted texts are never trimmed: every text emitted by
`StreamingFasterWhisper.process_chunk` is the stripped text of one of
the engine's raw segments, verbatim. -/
theorem fw_text_from_input (cst : ℚ) :
    ∀ (segs : List RawSeg) (st : FWStreamState),
      ∀ o ∈ (StreamingFasterWhisper.processChunkAux cst st segs).1,
        o.text ∈ segs.map (fun s => pyStrip s.text) := by
  intro segs
  induction segs with
  | nil => intro st o ho; rw [fw_nil] at ho; cases ho
  | cons seg rest ih =>
    intro st o ho
    by_cases h1 : st.last_end_time + 3/10 < cst + seg.stop
    · by_cases h2 : pyStrip seg.text ≠ "" ∧
        ¬ StreamingFasterWhisper._is_duplicate st.last_text (pyStrip seg.text)
      · rw [fw_cons_emit cst st seg rest h1 h2] at ho
        rcases List.mem_cons.mp ho with rfl | hmem
        · simp
        · simp only [List.map_cons]
          exact List.mem_cons_of_mem _ (ih _ o hmem)
      · rw [fw_cons_skip_text cst st seg rest h1 h2] at ho
        simp only [List.map_cons]
        exact List.mem_cons_of_mem _ (ih st o ho)
    · rw [fw_cons_skip_time cst st seg rest h1] at ho
      simp only [List.map_cons]
      exact List.mem_cons_of_mem _ (ih st o ho)

/-- C1 counterexample: in the claim's concrete scenario (previous
emitted text `"see the cat"`, next chunk's first raw segment text
`"the cat ran away"`), `process_chunk` emits the segment text whole:
the emitted continuation is `"the cat ran away"` — which begins with
`"the cat"` — not `"ran away"`, and the segment is not suppressed. -/
theorem C1_boundary_dup_cex :
    (StreamingFasterWhisper.runSession ⟨0, ""⟩
        [(0, [⟨0, 2, "see the cat"⟩]), (3/2, [⟨3/5, 2, "the cat ran away"⟩])]).1 =
      [⟨0, 2, "see the cat"⟩, ⟨21/10, 7/2, "the cat ran away"⟩] ∧
    "the cat ran away" = "the cat" ++ " ran away" ∧
    "the cat ran away" ≠ "ran away" ∧ "the cat ran away" ≠ "" :=
  ⟨fwScenarioEval, by decide, by decide, by decide⟩

/-- C1 as amended: the duplicate heuristic does not fire in the claim's
scenario (the first three words `"the cat ran"` differ from the last
three words `"see the cat"`), so the stitcher re-emits `"the cat"` as
part of the whole segment text `"the cat ran away"`.  In general the
stitcher never trims leading words: it either suppresses a segment
whole (case-insensitive equality, or first `min(3, wordCounts)` words
equal to the last `min(3, wordCounts)` words of the previous emitted
text) or emits its stripped text verbatim. -/
theorem C1_boundary_dup_amended :
    StreamingFasterWhisper._is_duplicate "see the cat" "the cat ran away" = false ∧
    (StreamingFasterWhisper.runSession ⟨0, ""⟩
        [(0, [⟨0, 2, "see the cat"⟩]),
         (3/2, [⟨3/5, 2, "the cat ran away"⟩])]).1.map OutSeg.text =
      ["see the cat", "the cat ran away"] ∧
    (∀ (st : FWStreamState) (cst : ℚ) (segs : List RawSeg),
      (StreamingFasterWhisper.process_chunk st cst segs).1.Forall
        (fun o => o.text ∈ segs.map (fun s => pyStrip s.text))) :=
  ⟨by decide, by rw [fwScenarioEval]; rfl,
   fun st cst segs =>
     List.forall_iff_forall_mem.mpr (fw_text_from_input cst segs st)⟩

/-! ## C4 — segment filtering of the overlap-resubmission stitcher -/

/-- C4 counterexample: `StreamingWhisper.process_chunk` (the stitcher
that keeps `pending_audio` and resubmits the overlap) drops a segment
whose adjusted end (2.0) exceeds `last_end_time + 0.3` (= 1.3) because
its adjusted start (0.5) lies before `last_end_time` (= 1.0); under the
claim's rule it would have to be kept. -/
theorem C4_drop_rule_cex :
    (StreamingWhisper.process_chunk ⟨0, 1⟩ 100 0 2 [⟨1/2, 2, "x"⟩]).1 = [] ∧
    (1 : ℚ) + 3/10 < 0 + 2 := by
  constructor
  · simp only [StreamingWhisper.process_chunk, StreamingWhisper.segLoop]
    norm_num
  · norm_num

/-- C4 as amended: in `StreamingWhisper.process_chunk` /
`StreamingParakeet.process_chunk` a returned segment is dropped exactly
when its adjusted start time is below the session's current
`last_end_time` (which advances to the adjusted end of each kept
segment); the adjusted end time and the 0.3 s tolerance are not
consulted (the end-time rule belongs to the faster-whisper stitcher). -/
theorem C4_drop_rule_amended :
    ∀ (st : WStreamState) (new_len : ℕ) (cst ov : ℚ) (segs : List RawSeg),
      (StreamingWhisper.process_chunk st new_len cst ov segs).1 =
        dropRuleSpec (if 0 < st.pending_len then cst - ov else cst)
          st.last_end_time segs := by
  have key : ∀ (est : ℚ) (segs : List RawSeg) (L : ℚ),
      (StreamingWhisper.segLoop est L segs).1 = dropRuleSpec est L segs := by
    intro est segs
    induction segs with
    | nil => intro L; rfl
    | cons seg rest ih =>
      intro L
      by_cases h : L ≤ est + seg.start
      · simp only [StreamingWhisper.segLoop, dropRuleSpec]
        rw [if_pos h, if_neg (not_lt.mpr h), ← ih (est + seg.stop)]
      · simp only [StreamingWhisper.segLoop, dropRuleSpec]
        rw [if_neg h, if_pos (not_le.mp h)]
        exact ih L
  intro st new_len cst ov segs
  simp only [StreamingWhisper.process_chunk]
  exact key _ segs st.last_end_time

/-! ## C5 — monotonic stitching -/

/-- A member of `l.getLast?` is a member of `l`. -/
theorem mem_of_getLastOpt {α : Type} {l : List α} {x : α}
    (h : x ∈ l.getLast?) : x ∈ l := by
  rcases List.mem_getLast?_eq_getLast h with ⟨hne, rfl⟩
  exact List.getLast_mem hne

/-- Invariant of the faster-whisper per-chunk loop: `last_end_time`
never decreases, the emitted starts are non-decreasing, and every
emitted start lies between the incoming and the final `last_end_time`
(provided each raw segment has `end ≥ start`). -/
theorem fw_chunk_inv (cst : ℚ) :
    ∀ (segs : List RawSeg) (st : FWStreamState),
      (∀ s ∈ segs, s.start ≤ s.stop) →
      st.last_end_time ≤
        (StreamingFasterWhisper.processChunkAux cst st segs).2.last_end_time ∧
      List.Chain' (· ≤ ·)
        ((StreamingFasterWhisper.processChunkAux cst st segs).1.map OutSeg.start) ∧
      (∀ x ∈ (StreamingFasterWhisper.processChunkAux cst st segs).1.map OutSeg.start,
        st.last_end_time ≤ x ∧
        x ≤ (StreamingFasterWhisper.processChunkAux cst st segs).2.last_end_time) := by
  intro segs
  induction segs with
  | nil =>
    intro st _
    rw [fw_nil]
    exact ⟨le_refl _, List.chain'_nil, by intro x hx; cases hx⟩
  | cons seg rest ih =>
    intro st hsegs
    have hrest : ∀ s ∈ rest, s.start ≤ s.stop :=
      fun s hs => hsegs s (List.mem_cons_of_mem _ hs)
    by_cases h1 : st.last_end_time + 3/10 < cst + seg.stop
    · by_cases h2 : pyStrip seg.text ≠ "" ∧
        ¬ StreamingFasterWhisper._is_duplicate st.last_text (pyStrip seg.text)
      · rw [fw_cons_emit cst st seg rest h1 h2]
        obtain ⟨ihL, ihC, ihB⟩ := ih ⟨cst + seg.stop, pyStrip seg.text⟩ hrest
        have hE : st.last_end_time < cst + seg.stop := by linarith
        have hA : cst + seg.start ≤ cst + seg.stop := by
          have := hsegs seg (List.mem_cons_self seg rest)
          linarith
        set a := if cst + seg.start < st.last_end_time then st.last_end_time
                 else cst + seg.start with ha
        have ha_ge : st.last_end_time ≤ a := by
          rw [ha]; split
          · exact le_refl _
          · linarith [not_lt.mp (by assumption : ¬ (cst + seg.start < st.last_end_time))]
        have ha_le : a ≤ cst + seg.stop := by
          rw [ha]; split
          · exact le_of_lt hE
          · exact hA
        refine ⟨le_trans (le_of_lt hE) ihL, ?_, ?_⟩
        · rw [List.map_cons]
          rw [List.chain'_cons']
          refine ⟨?_, ihC⟩
          intro y hy
          have hy' := ihB y (List.mem_of_mem_head? hy)
          exact le_trans ha_le hy'.1
        · intro x hx
          rw [List.map_cons] at hx
          rcases List.mem_cons.mp hx with rfl | hmem
          · exact ⟨ha_ge, le_trans ha_le ihL⟩
          · have := ihB x hmem
            exact ⟨le_trans (le_of_lt hE) this.1, this.2⟩
      · rw [fw_cons_skip_text cst st seg rest h1 h2]
        exact ih st hrest
    · rw [fw_cons_skip_time cst st seg rest h1]
      exact ih st hrest

/-- Session-level invariant for the faster-whisper stitcher. -/
theorem fw_session_inv :
    ∀ (chunks : List (ℚ × List RawSeg)) (st : FWStreamState),
      (∀ c ∈ chunks, ∀ s ∈ c.2, s.start ≤ s.stop) →
      st.last_end_time ≤
        (StreamingFasterWhisper.runSession st chunks).2.last_end_time ∧
      List.Chain' (· ≤ ·)
        ((StreamingFasterWhisper.runSession st chunks).1.map OutSeg.start) ∧
      (∀ x ∈ (StreamingFasterWhisper.runSession st chunks).1.map OutSeg.start,
        st.last_end_time ≤ x ∧
        x ≤ (StreamingFasterWhisper.runSession st chunks).2.last_end_time) := by
  intro chunks
  induction chunks with
  | nil =>
    intro st _
    exact ⟨le_refl _, List.chain'_nil, by intro x hx; cases hx⟩
  | cons c rest ih =>
    intro st hc
    obtain ⟨cst, segs⟩ := c
    have h1 := fw_chunk_inv cst segs st (hc _ (List.mem_cons_self _ _))
    simp only [StreamingFasterWhisper.runSession, StreamingFasterWhisper.process_chunk]
    obtain ⟨h1L, h1C, h1B⟩ := h1
    obtain ⟨h2L, h2C, h2B⟩ :=
      ih (StreamingFasterWhisper.processChunkAux cst st segs).2
        (fun c hcm => hc c (List.mem_cons_of_mem _ hcm))
    refine ⟨le_trans h1L h2L, ?_, ?_⟩
    · rw [List.map_append, List.chain'_append]
      refine ⟨h1C, h2C, ?_⟩
      intro x hx y hy
      have hx' := h1B x (mem_of_getLastOpt hx)
      have hy' := h2B y (List.mem_of_mem_head? hy)
      exact le_trans hx'.2 hy'.1
    · intro x hx
      rw [List.map_append] at hx
      rcases List.mem_append.mp hx with hmem | hmem
      · have := h1B x hmem
        exact ⟨this.1, le_trans this.2 h2L⟩
      · have := h2B x hmem
        exact ⟨le_trans h1L this.1, this.2⟩

/-- Invariant of the whisper/parakeet per-chunk loop. -/
theorem w_segLoop_inv (est : ℚ) :
    ∀ (segs : List RawSeg) (L : ℚ),
      (∀ s ∈ segs, s.start ≤ s.stop) →
      L ≤ (StreamingWhisper.segLoop est L segs).2 ∧
      List.Chain' (· ≤ ·)
        ((StreamingWhisper.segLoop est L segs).1.map OutSeg.start) ∧
      (∀ x ∈ (StreamingWhisper.segLoop est L segs).1.map OutSeg.start,
        L ≤ x ∧ x ≤ (StreamingWhisper.segLoop est L segs).2) := by
  intro segs
  induction segs with
  | nil =>
    intro L _
    exact ⟨le_refl _, List.chain'_nil, by intro x hx; cases hx⟩
  | cons seg rest ih =>
    intro L hsegs
    have hrest : ∀ s ∈ rest, s.start ≤ s.stop :=
      fun s hs => hsegs s (List.mem_cons_of_mem _ hs)
    have hA : est + seg.start ≤ est + seg.stop := by
      have := hsegs seg (List.mem_cons_self seg rest)
      linarith
    by_cases h : L ≤ est + seg.start
    · rw [show StreamingWhisper.segLoop est L (seg :: rest) =
          (⟨est + seg.start, est + seg.stop, seg.text⟩ ::
            (StreamingWhisper.segLoop est (est + seg.stop) rest).1,
           (StreamingWhisper.segLoop est (est + seg.stop) rest).2) from by
        simp only [StreamingWhisper.segLoop]; rw [if_pos h]]
      obtain ⟨ihL, ihC, ihB⟩ := ih (est + seg.stop) hrest
      refine ⟨by linarith, ?_, ?_⟩
      · rw [List.map_cons, List.chain'_cons']
        refine ⟨?_, ihC⟩
        intro y hy
        have hy' := ihB y (List.mem_of_mem_head? hy)
        exact le_trans hA hy'.1
      · intro x hx
        rw [List.map_cons] at hx
        rcases List.mem_cons.mp hx with rfl | hmem
        · exact ⟨h, le_trans hA ihL⟩
        · have := ihB x hmem
          exact ⟨by linarith [this.1], this.2⟩
    · rw [show StreamingWhisper.segLoop est L (seg :: rest) =
          StreamingWhisper.segLoop est L rest from by
        simp only [StreamingWhisper.segLoop]; rw [if_neg h]]
      exact ih L hrest

/-- Session-level invariant for the whisper/parakeet stitcher. -/
theorem w_session_inv (ov : ℚ) :
    ∀ (chunks : List (ℕ × ℚ × List RawSeg)) (st : WStreamState),
      (∀ c ∈ chunks, ∀ s ∈ c.2.2, s.start ≤ s.stop) →
      st.last_end_time ≤
        (StreamingWhisper.runSession ov st chunks).2.last_end_time ∧
      List.Chain' (· ≤ ·)
        ((StreamingWhisper.runSession ov st chunks).1.map OutSeg.start) ∧
      (∀ x ∈ (StreamingWhisper.runSession ov st chunks).1.map OutSeg.start,
        st.last_end_time ≤ x ∧
        x ≤ (StreamingWhisper.runSession ov st chunks).2.last_end_time) := by
  intro chunks
  induction chunks with
  | nil =>
    intro st _
    exact ⟨le_refl _, List.chain'_nil, by intro x hx; cases hx⟩
  | cons c rest ih =>
    intro st hc
    obtain ⟨n, cst, segs⟩ := c
    have h1 := w_segLoop_inv
      (if 0 < st.pending_len then cst - ov else cst) segs st.last_end_time
      (hc _ (List.mem_cons_self _ _))
    obtain ⟨h1L, h1C, h1B⟩ := h1
    simp only [StreamingWhisper.runSession, StreamingWhisper.process_chunk]
    obtain ⟨h2L, h2C, h2B⟩ :=
      ih ⟨n, (StreamingWhisper.segLoop
            (if 0 < st.pending_len then cst - ov else cst) st.last_end_time segs).2⟩
        (fun c hcm => hc c (List.mem_cons_of_mem _ hcm))
    refine ⟨le_trans h1L h2L, ?_, ?_⟩
    · rw [List.map_append, List.chain'_append]
      refine ⟨h1C, h2C, ?_⟩
      intro x hx y hy
      have hx' := h1B x (mem_of_getLastOpt hx)
      have hy' := h2B y (List.mem_of_mem_head? hy)
      exact le_trans hx'.2 hy'.1
    · intro x hx
      rw [List.map_append] at hx
      rcases List.mem_append.mp hx with hmem | hmem
      · have := h1B x hmem
        exact ⟨this.1, le_trans this.2 h2L⟩
      · have := h2B x hmem
        exact ⟨le_trans h1L this.1, this.2⟩

/-- C5: for both streaming stitchers, a session started from the
constructor state and fed chunks with non-decreasing chunk start times,
whose raw segments all satisfy `end ≥ start`, emits segments whose
`start` values are non-decreasing across the entire session. -/
theorem C5_monotonic_stitching (chunksF : List (ℚ × List RawSeg))
    (chunksW : List (ℕ × ℚ × List RawSeg)) (ov : ℚ)
    (h1 : List.Chain' (· ≤ ·) (chunksF.map Prod.fst))
    (h2 : ∀ c ∈ chunksF, ∀ s ∈ c.2, s.start ≤ s.stop)
    (h3 : List.Chain' (· ≤ ·) (chunksW.map (fun c => c.2.1)))
    (h4 : ∀ c ∈ chunksW, ∀ s ∈ c.2.2, s.start ≤ s.stop) :
    List.Chain' (· ≤ ·)
      ((StreamingFasterWhisper.runSession ⟨0, ""⟩ chunksF).1.map OutSeg.start) ∧
    List.Chain' (· ≤ ·)
      ((StreamingWhisper.runSession ov ⟨0, 0⟩ chunksW).1.map OutSeg.start) :=
  ⟨(fw_session_inv chunksF ⟨0, ""⟩ h2).2.1, (w_session_inv ov chunksW ⟨0, 0⟩ h4).2.1⟩

/-- Witness for C5 at a concrete two-chunk session for each stitcher. -/
theorem C5_monotonic_stitching_wit :
    List.Chain' (· ≤ ·)
      ((StreamingFasterWhisper.runSession ⟨0, ""⟩
          [(0, [⟨0, 1, "hello world"⟩]), (0, [⟨0, 2, "more words"⟩])]).1.map OutSeg.start) ∧
    List.Chain' (· ≤ ·)
      ((StreamingWhisper.runSession 2 ⟨0, 0⟩
          [(5, 0, [⟨0, 1, "hello world"⟩]), (5, 0, [⟨0, 2, "more words"⟩])]).1.map OutSeg.start) :=
  C5_monotonic_stitching
    [(0, [⟨0, 1, "hello world"⟩]), (0, [⟨0, 2, "more words"⟩])]
    [(5, 0, [⟨0, 1, "hello world"⟩]), (5, 0, [⟨0, 2, "more words"⟩])] 2
    (by simp) (by intro c hc s hs; fin_cases hc <;> fin_cases hs <;> norm_num)
    (by simp) (by intro c hc s hs; fin_cases hc <;> fin_cases hs <;> norm_num)

/-! ## C7 — fingerprint self-match -/

/-- XOR of a value with itself is zero on the int32 model. -/
theorem xor32_self (x : ℤ) : xor32 x x = 0 := by
  unfold xor32
  rw [show Nat.xor (toU32 x) (toU32 x) = 0 from Nat.xor_self (toU32 x)]
  unfold fromU32
  norm_num

/-- Lemma: `diffBits` of a list against itself is zero. -/
theorem diffBits_self (l : List ℤ) : PatternEngine.diffBits l l = 0 := by
  unfold PatternEngine.diffBits
  rw [List.zipWith_same]
  apply List.sum_eq_zero
  intro x hx
  rcases List.mem_map.mp hx with ⟨y, _, rfl⟩
  rw [xor32_self]
  rfl

/-- At offset 0, `f1` is the whole first fingerprint. -/
theorem alignF1_zero (arr : List ℤ) : PatternEngine.alignF1 arr 0 = arr := by
  unfold PatternEngine.alignF1 pySliceTo
  norm_num

/-- At offset 0, `f2` is the prefix of the second fingerprint of the
first one's length. -/
theorem alignF2_zero (arr : List ℤ) (len1 : ℕ) :
    PatternEngine.alignF2 arr 0 len1 = arr.take len1 := by
  unfold PatternEngine.alignF2
  norm_num

/-- Self-comparison at offset 0 scores exactly 1. -/
theorem simAt_self (fp : List ℤ) (h : fp ≠ []) :
    PatternEngine.simAt fp fp 0 = some 1 := by
  simp only [PatternEngine.simAt]
  rw [alignF1_zero, alignF2_zero, List.take_length, min_self]
  have hlen : (fp.map toI32).length ≠ 0 := by
    rw [List.length_map]
    exact fun hl => h (List.length_eq_zero.mp hl)
  rw [if_neg hlen, List.take_length, diffBits_self]
  norm_num

/-- Unfolding lemma: one step of the offset scan. -/
theorem scanOffsets_one (fp1 fp2 : List ℤ) (o : ℤ) (b : ℚ × ℤ) :
    PatternEngine.scanOffsets fp1 fp2 1 o b =
      (match PatternEngine.simAt fp1 fp2 o with
       | none => b
       | some s => if b.1 < s then (s, o) else b) := rfl

/-- C7: `match_fingerprint(fp, fp, 0)` returns exactly `(1.0, 0)` for
every non-empty fingerprint. -/
theorem C7_self_match (fp : List ℤ) (h : fp ≠ []) :
    PatternEngine.match_fingerprint fp fp 0 = (1, 0) := by
  have hne : fp.isEmpty = false := by
    cases fp with
    | nil => exact absurd rfl h
    | cons a l => rfl
  unfold PatternEngine.match_fingerprint
  rw [hne]
  simp only [Bool.or_self, Bool.false_eq_true, if_false]
  rw [show ((2:ℕ) * 0 + 1) = 1 from rfl]
  rw [show (-((0:ℕ):ℤ)) = 0 from by norm_num]
  rw [scanOffsets_one, simAt_self fp h]
  norm_num

/-- Witness for C7 at the one-frame fingerprint `[5]`. -/
theorem C7_self_match_wit : PatternEngine.match_fingerprint [5] [5] 0 = (1, 0) :=
  C7_self_match [5] (by decide)

/-! ## C6 — match_fingerprint offset search -/

/-- Fuel-bounded popcount is bounded by the bit width. -/
theorem popCountFuel_le :
    ∀ (fuel k n : ℕ), n < 2 ^ k → k ≤ fuel → popCountFuel fuel n ≤ k := by
  intro fuel
  induction fuel with
  | zero =>
    intro k n _ _
    simp [popCountFuel]
  | succ f ih =>
    intro k n h hk
    by_cases hn : n = 0
    · simp [popCountFuel, hn]
    · rw [popCountFuel, if_neg hn]
      cases k with
      | zero =>
        exfalso
        exact hn (by omega)
      | succ k' =>
        have hdiv : n / 2 < 2 ^ k' := by
          rw [Nat.div_lt_iff_lt_mul (by norm_num)]
          calc n < 2 ^ (k' + 1) := h
            _ = 2 ^ k' * 2 := by rw [Nat.pow_succ]
        have hrec := ih k' (n / 2) hdiv (by omega)
        have hm : n % 2 ≤ 1 := by omega
        omega

/-- Bound: `bin(x).count('1')` of a magnitude at most `2 ^ 31` is at most 31. -/
theorem popCount32_le31 (n : ℕ) (h : n ≤ 2 ^ 31) : popCount32 n ≤ 31 := by
  rcases Nat.lt_or_ge n (2 ^ 31) with hlt | hge
  · exact popCountFuel_le 64 31 n hlt (by norm_num)
  · have : n = 2 ^ 31 := by omega
    subst this
    decide

/-- Lemma: `toU32` always lands in `[0, 2 ^ 32)`. -/
theorem toU32_lt (z : ℤ) : toU32 z < 2 ^ 32 := by
  unfold toU32
  omega

/-- The magnitude of an int32 XOR is at most `2 ^ 31`, hence its
popcount is at most 31 — similarities are therefore always positive. -/
theorem xor32_natAbs_le (a b : ℤ) : (xor32 a b).natAbs ≤ 2 ^ 31 := by
  unfold xor32 fromU32
  have hu : Nat.xor (toU32 a) (toU32 b) < 2 ^ 32 :=
    Nat.xor_lt_two_pow (toU32_lt a) (toU32_lt b)
  split
  · omega
  · omega

/-- The XOR popcount sum is at most 31 bits per aligned frame. -/
theorem diffBits_le :
    ∀ (t1 t2 : List ℤ),
      PatternEngine.diffBits t1 t2 ≤ 31 * min t1.length t2.length := by
  intro t1
  induction t1 with
  | nil => intro t2; simp [PatternEngine.diffBits]
  | cons a l ih =>
    intro t2
    cases t2 with
    | nil => simp [PatternEngine.diffBits]
    | cons b m =>
      have h1 : popCount32 ((xor32 a b).natAbs) ≤ 31 :=
        popCount32_le31 _ (xor32_natAbs_le a b)
      have h2 := ih m
      unfold PatternEngine.diffBits at h2 ⊢
      rw [List.zipWith_cons_cons, List.sum_cons]
      simp only [List.length_cons]
      have h3 : min (l.length + 1) (m.length + 1) = min l.length m.length + 1 := by
        omega
      rw [h3]
      have h4 : 31 * (min l.length m.length + 1) = 31 * min l.length m.length + 31 := by
        ring
      omega

/-- A similarity computed by `simAt` is always strictly positive: a
32-bit signed XOR has magnitude at most `2 ^ 31`, so at most 31 of the
32 counted bits per frame can differ. -/
theorem simAt_pos (fp1 fp2 : List ℤ) (o : ℤ) (s : ℚ)
    (h : PatternEngine.simAt fp1 fp2 o = some s) : 0 < s := by
  simp only [PatternEngine.simAt] at h
  set f1 := PatternEngine.alignF1 (fp1.map toI32) o with hf1
  set f2 := PatternEngine.alignF2 (fp2.map toI32) o f1.length with hf2
  by_cases h0 : min f1.length f2.length = 0
  · rw [if_pos h0] at h
    cases h
  · rw [if_neg h0] at h
    injection h with hs
    set n := min f1.length f2.length with hn
    have hd : PatternEngine.diffBits (f1.take n) (f2.take n) ≤ 31 * n := by
      have hb := diffBits_le (f1.take n) (f2.take n)
      have l1 : (f1.take n).length = n := by
        rw [List.length_take]
        omega
      have l2 : (f2.take n).length = n := by
        rw [List.length_take]
        omega
      rw [l1, l2, min_self] at hb
      exact hb
    have hn1 : 1 ≤ n := Nat.one_le_iff_ne_zero.mpr h0
    have hnq : (1 : ℚ) ≤ (n : ℚ) := by exact_mod_cast hn1
    have hdq : (PatternEngine.diffBits (f1.take n) (f2.take n) : ℚ) ≤ 31 * (n : ℚ) := by
      exact_mod_cast hd
    have hpos : (0 : ℚ) < 32 * (n : ℚ) := by linarith
    rw [← hs]
    have hlt : (PatternEngine.diffBits (f1.take n) (f2.take n) : ℚ) / (32 * (n : ℚ)) < 1 := by
      rw [div_lt_one hpos]
      linarith
    linarith

/-- For non-empty fingerprints the alignment at offset 0 is non-empty,
so offset 0 always yields a similarity. -/
theorem simAt_zero_isSome (fp1 fp2 : List ℤ) (h1 : fp1 ≠ []) (h2 : fp2 ≠ []) :
    ∃ s, PatternEngine.simAt fp1 fp2 0 = some s := by
  simp only [PatternEngine.simAt]
  rw [alignF1_zero, alignF2_zero]
  have hl1 : (fp1.map toI32).length ≠ 0 := by
    rw [List.length_map]
    exact fun hl => h1 (List.length_eq_zero.mp hl)
  have hl2 : (fp2.map toI32).length ≠ 0 := by
    rw [List.length_map]
    exact fun hl => h2 (List.length_eq_zero.mp hl)
  have hmin : min (fp1.map toI32).length
      ((fp2.map toI32).take (fp1.map toI32).length).length ≠ 0 := by
    rw [List.length_take]
    omega
  rw [if_neg hmin]
  exact ⟨_, rfl⟩

/-- Unfolding lemma: the offset scan on zero remaining offsets. -/
theorem scanOffsets_zero (fp1 fp2 : List ℤ) (o : ℤ) (b : ℚ × ℤ) :
    PatternEngine.scanOffsets fp1 fp2 0 o b = b := rfl

/-- Unfolding lemma: one scan step followed by the rest. -/
theorem scanOffsets_succ (fp1 fp2 : List ℤ) (count : ℕ) (o : ℤ) (b : ℚ × ℤ) :
    PatternEngine.scanOffsets fp1 fp2 (count + 1) o b =
      PatternEngine.scanOffsets fp1 fp2 count (o + 1)
        (match PatternEngine.simAt fp1 fp2 o with
         | none => b
         | some s => if b.1 < s then (s, o) else b) := rfl

/-- The running best score never decreases along the scan. -/
theorem scanOffsets_fst_ge (fp1 fp2 : List ℤ) :
    ∀ (count : ℕ) (o : ℤ) (b : ℚ × ℤ),
      b.1 ≤ (PatternEngine.scanOffsets fp1 fp2 count o b).1 := by
  intro count
  induction count with
  | zero => intro o b; exact le_refl _
  | succ n ih =>
    intro o b
    rw [scanOffsets_succ]
    cases h : PatternEngine.simAt fp1 fp2 o with
    | none =>
      simp only [h]
      exact ih (o + 1) b
    | some s =>
      simp only [h]
      by_cases hlt : b.1 < s
      · rw [if_pos hlt]
        exact le_trans (le_of_lt hlt) (ih (o + 1) (s, o))
      · rw [if_neg hlt]
        exact ih (o + 1) b

/-- The final best score dominates the similarity at every scanned
offset. -/
theorem scanOffsets_ub (fp1 fp2 : List ℤ) :
    ∀ (count : ℕ) (o : ℤ) (b : ℚ × ℤ) (q : ℤ) (s : ℚ),
      o ≤ q → q < o + count → PatternEngine.simAt fp1 fp2 q = some s →
      s ≤ (PatternEngine.scanOffsets fp1 fp2 count o b).1 := by
  intro count
  induction count with
  | zero =>
    intro o b q s hq1 hq2 _
    exfalso
    omega
  | succ n ih =>
    intro o b q s hq1 hq2 hq3
    rw [scanOffsets_succ]
    by_cases hq : q = o
    · subst hq
      simp only [hq3]
      by_cases hlt : b.1 < s
      · rw [if_pos hlt]
        exact scanOffsets_fst_ge fp1 fp2 n (q + 1) (s, q)
      · rw [if_neg hlt]
        exact le_trans (not_lt.mp hlt) (scanOffsets_fst_ge fp1 fp2 n (q + 1) b)
    · cases h : PatternEngine.simAt fp1 fp2 o with
      | none =>
        simp only [h]
        exact ih (o + 1) b q s (by omega) (by omega) hq3
      | some s0 =>
        simp only [h]
        by_cases hlt : b.1 < s0
        · rw [if_pos hlt]
          exact ih (o + 1) (s0, o) q s (by omega) (by omega) hq3
        · rw [if_neg hlt]
          exact ih (o + 1) b q s (by omega) (by omega) hq3

/-- Full characterisation of the scan: either nothing beat the incoming
best (and every scanned similarity is at most its score), or the result
is the first scanned offset attaining the final score, every earlier
scanned offset scoring strictly less. -/
theorem scanOffsets_cases (fp1 fp2 : List ℤ) :
    ∀ (count : ℕ) (o : ℤ) (b : ℚ × ℤ),
      (PatternEngine.scanOffsets fp1 fp2 count o b = b ∧
        ∀ q s, o ≤ q → q < o + count →
          PatternEngine.simAt fp1 fp2 q = some s → s ≤ b.1) ∨
      (o ≤ (PatternEngine.scanOffsets fp1 fp2 count o b).2 ∧
        (PatternEngine.scanOffsets fp1 fp2 count o b).2 < o + count ∧
        PatternEngine.simAt fp1 fp2 (PatternEngine.scanOffsets fp1 fp2 count o b).2 =
          some (PatternEngine.scanOffsets fp1 fp2 count o b).1 ∧
        b.1 < (PatternEngine.scanOffsets fp1 fp2 count o b).1 ∧
        ∀ q s, o ≤ q → q < (PatternEngine.scanOffsets fp1 fp2 count o b).2 →
          PatternEngine.simAt fp1 fp2 q = some s →
          s < (PatternEngine.scanOffsets fp1 fp2 count o b).1) := by
  intro count
  induction count with
  | zero =>
    intro o b
    left
    exact ⟨rfl, fun q s hq1 hq2 _ => absurd hq2 (by omega)⟩
  | succ n ih =>
    intro o b
    rw [scanOffsets_succ]
    cases h : PatternEngine.simAt fp1 fp2 o with
    | none =>
      simp only [h]
      rcases ih (o + 1) b with ⟨he, hb⟩ | ⟨h1, h2, h3, h4, h5⟩
      · left
        refine ⟨he, fun q s hq1 hq2 hq3 => ?_⟩
        by_cases hq : q = o
        · subst hq; rw [h] at hq3; cases hq3
        · exact hb q s (by omega) (by omega) hq3
      · right
        refine ⟨by omega, by omega, h3, h4, fun q s hq1 hq2 hq3 => ?_⟩
        by_cases hq : q = o
        · subst hq; rw [h] at hq3; cases hq3
        · exact h5 q s (by omega) hq2 hq3
    | some s0 =>
      simp only [h]
      by_cases hlt : b.1 < s0
      · rw [if_pos hlt]
        rcases ih (o + 1) (s0, o) with ⟨he, hb⟩ | ⟨h1, h2, h3, h4, h5⟩
        · right
          rw [he]
          refine ⟨le_refl o, show o < o + ((n : ℤ) + 1) by omega, ?_, hlt, ?_⟩
          · exact h
          · intro q s hq1 hq2 _
            exact absurd hq1 (not_le.mpr hq2)
        · right
          have hs0r : s0 < (PatternEngine.scanOffsets fp1 fp2 n (o + 1) (s0, o)).1 := h4
          refine ⟨by omega, by omega, h3, lt_trans hlt hs0r, ?_⟩
          intro q s hq1 hq2 hq3
          by_cases hq : q = o
          · subst hq
            rw [h] at hq3
            injection hq3 with hs
            exact hs ▸ hs0r
          · exact h5 q s (by omega) hq2 hq3
      · rw [if_neg hlt]
        have hs0b : s0 ≤ b.1 := not_lt.mp hlt
        rcases ih (o + 1) b with ⟨he, hb⟩ | ⟨h1, h2, h3, h4, h5⟩
        · left
          refine ⟨he, fun q s hq1 hq2 hq3 => ?_⟩
          by_cases hq : q = o
          · subst hq; rw [h] at hq3; injection hq3 with hs; exact hs ▸ hs0b
          · exact hb q s (by omega) (by omega) hq3
        · right
          refine ⟨by omega, by omega, h3, h4, fun q s hq1 hq2 hq3 => ?_⟩
          by_cases hq : q = o
          · subst hq; rw [h] at hq3; injection hq3 with hs
            exact hs ▸ lt_of_le_of_lt hs0b h4
          · exact h5 q s (by omega) hq2 hq3

/-- C6: `match_fingerprint` returns `(0.0, 0)` on an empty fingerprint;
otherwise its score is the maximum similarity over the offsets in
`[-max_offset, max_offset]` at which an alignment exists, and its
offset is the first offset in ascending order attaining that maximum
(the returned offset is in range, attains the returned score, no
similarity exceeds the score, and every earlier offset scores strictly
less). -/
theorem C6_match_fingerprint_spec (fp1 fp2 : List ℤ) (max_offset : ℕ) :
    ((fp1 = [] ∨ fp2 = []) →
      PatternEngine.match_fingerprint fp1 fp2 max_offset = (0, 0)) ∧
    (fp1 ≠ [] → fp2 ≠ [] →
      (-(max_offset : ℤ) ≤ (PatternEngine.match_fingerprint fp1 fp2 max_offset).2 ∧
        (PatternEngine.match_fingerprint fp1 fp2 max_offset).2 ≤ (max_offset : ℤ)) ∧
      PatternEngine.simAt fp1 fp2
          (PatternEngine.match_fingerprint fp1 fp2 max_offset).2 =
        some (PatternEngine.match_fingerprint fp1 fp2 max_offset).1 ∧
      (∀ q s, -(max_offset : ℤ) ≤ q → q ≤ (max_offset : ℤ) →
        PatternEngine.simAt fp1 fp2 q = some s →
        s ≤ (PatternEngine.match_fingerprint fp1 fp2 max_offset).1) ∧
      (∀ q s, -(max_offset : ℤ) ≤ q →
        q < (PatternEngine.match_fingerprint fp1 fp2 max_offset).2 →
        PatternEngine.simAt fp1 fp2 q = some s →
        s < (PatternEngine.match_fingerprint fp1 fp2 max_offset).1)) := by
  constructor
  · intro hemp
    unfold PatternEngine.match_fingerprint
    have hcond : (fp1.isEmpty || fp2.isEmpty) = true := by
      rcases hemp with rfl | rfl <;> simp
    rw [if_pos hcond]
  · intro h1 h2
    have hne1 : fp1.isEmpty = false := by
      cases fp1 with
      | nil => exact absurd rfl h1
      | cons a l => rfl
    have hne2 : fp2.isEmpty = false := by
      cases fp2 with
      | nil => exact absurd rfl h2
      | cons a l => rfl
    have hmf : PatternEngine.match_fingerprint fp1 fp2 max_offset =
        PatternEngine.scanOffsets fp1 fp2 (2 * max_offset + 1)
          (-(max_offset : ℤ)) (0, 0) := by
      unfold PatternEngine.match_fingerprint
      rw [hne1, hne2]
      simp only [Bool.or_self, Bool.false_eq_true, if_false]
    obtain ⟨s0, hs0⟩ := simAt_zero_isSome fp1 fp2 h1 h2
    have hs0pos : 0 < s0 := simAt_pos fp1 fp2 0 s0 hs0
    rcases scanOffsets_cases fp1 fp2 (2 * max_offset + 1) (-(max_offset : ℤ)) (0, 0)
      with ⟨_, hb⟩ | ⟨hb1, hb2, hb3, hb4, hb5⟩
    · exfalso
      have h0 : s0 ≤ ((0 : ℚ), (0 : ℤ)).1 :=
        hb 0 s0 (by omega) (by omega) hs0
      have h0' : s0 ≤ (0 : ℚ) := h0
      linarith
    · rw [hmf]
      refine ⟨⟨hb1, by omega⟩, hb3, ?_, fun q s hq1 hq2 hq3 => hb5 q s hq1 hq2 hq3⟩
      intro q s hq1 hq2 hq3
      exact scanOffsets_ub fp1 fp2 (2 * max_offset + 1) (-(max_offset : ℤ)) (0, 0)
        q s hq1 (by omega) hq3

/-- Witness for C6 at `fp1 = fp2 = [1]`, `max_offset = 0`. -/
theorem C6_match_fingerprint_spec_wit :
    ((-((0 : ℕ) : ℤ) ≤ (PatternEngine.match_fingerprint [1] [1] 0).2 ∧
       (PatternEngine.match_fingerprint [1] [1] 0).2 ≤ ((0 : ℕ) : ℤ)) ∧
     PatternEngine.simAt [1] [1] (PatternEngine.match_fingerprint [1] [1] 0).2 =
       some (PatternEngine.match_fingerprint [1] [1] 0).1 ∧
     (∀ q s, -((0 : ℕ) : ℤ) ≤ q → q ≤ ((0 : ℕ) : ℤ) →
       PatternEngine.simAt [1] [1] q = some s →
       s ≤ (PatternEngine.match_fingerprint [1] [1] 0).1) ∧
     (∀ q s, -((0 : ℕ) : ℤ) ≤ q →
       q < (PatternEngine.match_fingerprint [1] [1] 0).2 →
       PatternEngine.simAt [1] [1] q = some s →
       s < (PatternEngine.match_fingerprint [1] [1] 0).1)) :=
  (C6_match_fingerprint_spec [1] [1] 0).2 (by decide) (by decide)

/-! ## C8 — quantisation round trip and cosine similarity -/

/-- Folding the running absolute maximum over a constant list. -/
theorem foldl_maxAbs_replicate (x : ℚ) :
    ∀ (n : ℕ) (m : ℚ),
      List.foldl (fun m x => max m |x|) m (List.replicate n x) =
        if n = 0 then m else max m |x| := by
  intro n
  induction n with
  | zero => intro m; rfl
  | succ k ih =>
    intro m
    rw [List.replicate_succ, List.foldl_cons, ih]
    by_cases hk : k = 0
    · simp [hk]
    · rw [if_neg hk, if_neg (Nat.succ_ne_zero k)]
      rw [max_assoc, max_self]

/-- Lemma: `zipWith` of two constant lists of equal length. -/
theorem zipWith_replicate_mul (x y : ℚ) :
    ∀ (n : ℕ),
      List.zipWith (fun a b => a * b) (List.replicate n x) (List.replicate n y) =
        List.replicate n (x * y) := by
  intro n
  induction n with
  | zero => rfl
  | succ k ih => simp [List.replicate_succ, ih]

/-- Lemma: `maxAbs` of the counterexample vector `1 :: 400 × (1/128)`. -/
theorem maxAbs_cex :
    PatternEngine.maxAbs ((1 : ℚ) :: List.replicate 400 (1/128)) = 1 := by
  unfold PatternEngine.maxAbs
  rw [List.foldl_cons, foldl_maxAbs_replicate]
  rw [if_neg (by norm_num)]
  have h1 : |(1 : ℚ)| = 1 := abs_one
  have h2 : |(1 : ℚ)/128| = 1/128 := abs_of_pos (by norm_num)
  rw [h1, h2]
  rw [max_eq_right (by norm_num : (0 : ℚ) ≤ 1)]
  rw [max_eq_left (by norm_num : (1 : ℚ)/128 ≤ 1)]

/-- Quantising the counterexample vector: the dominant component maps
to 127, each `1/128` component truncates to 0 (one quantisation step is
`1/127` of the maximum, and `1/128 < 1/127`). -/
theorem quantize_cex :
    PatternEngine.quantize_embedding ((1 : ℚ) :: List.replicate 400 (1/128)) =
      127 :: List.replicate 400 0 := by
  simp only [PatternEngine.quantize_embedding]
  rw [maxAbs_cex]
  rw [if_pos (by norm_num : (0 : ℚ) < 1)]
  simp only [List.map_cons, List.map_replicate]
  congr 1
  · unfold PatternEngine.ratTrunc
    rw [if_pos (by norm_num)]
    norm_num
  · congr 1
    unfold PatternEngine.ratTrunc
    rw [if_pos (by norm_num)]
    norm_num [Int.floor_eq_iff]

/-- Dequantising back gives `1 :: 400 × 0`. -/
theorem dequantize_cex :
    PatternEngine.dequantize_embedding ((127 : ℤ) :: List.replicate 400 0) =
      (1 : ℚ) :: List.replicate 400 0 := by
  unfold PatternEngine.dequantize_embedding
  simp only [List.map_cons, List.map_replicate]
  norm_num

/-- Squared norm of the dequantised vector. -/
theorem normSq_w :
    PatternEngine.normSq ((1 : ℚ) :: List.replicate 400 0) = 1 := by
  unfold PatternEngine.normSq PatternEngine.dotQ
  rw [List.zipWith_cons_cons, zipWith_replicate_mul, List.sum_cons,
    List.sum_replicate]
  norm_num

/-- Squared norm of the counterexample vector: `1 + 400/16384`. -/
theorem normSq_v :
    PatternEngine.normSq ((1 : ℚ) :: List.replicate 400 (1/128)) = 1049/1024 := by
  unfold PatternEngine.normSq PatternEngine.dotQ
  rw [List.zipWith_cons_cons, zipWith_replicate_mul, List.sum_cons,
    List.sum_replicate]
  rw [nsmul_eq_mul]
  norm_num

/-- Dot product of the round-tripped vector with the original. -/
theorem dot_wv :
    PatternEngine.dotQ ((1 : ℚ) :: List.replicate 400 0)
      ((1 : ℚ) :: List.replicate 400 (1/128)) = 1 := by
  unfold PatternEngine.dotQ
  rw [List.zipWith_cons_cons, zipWith_replicate_mul, List.sum_cons,
    List.sum_replicate]
  norm_num

/-- C8 counterexample: the vector `v = (1, 1/128, …, 1/128)` (401
components) has non-zero norm, yet
`cosine_similarity (dequantize (quantize v)) v = 32/√1049 ≈ 0.988`,
strictly below 0.99: every small component truncates to zero and the
dimension makes the lost mass significant. -/
theorem C8_quant_cos_cex :
    PatternEngine.normSq ((1 : ℚ) :: List.replicate 400 (1/128)) ≠ 0 ∧
    PatternEngine.cosine_similarity
      (PatternEngine.dequantize_embedding
        (PatternEngine.quantize_embedding ((1 : ℚ) :: List.replicate 400 (1/128))))
      ((1 : ℚ) :: List.replicate 400 (1/128)) < 99/100 := by
  constructor
  · rw [normSq_v]
    norm_num
  · rw [quantize_cex, dequantize_cex]
    unfold PatternEngine.cosine_similarity
    rw [normSq_w, normSq_v, dot_wv]
    rw [show (((1 : ℚ) : ℝ)) = 1 by norm_num, Real.sqrt_one]
    rw [show (((1049/1024 : ℚ) : ℝ)) = 1049/1024 by norm_num]
    have hs2pos : 0 < Real.sqrt (1049/1024 : ℝ) := Real.sqrt_pos.mpr (by norm_num)
    rw [if_neg (by push_neg; exact ⟨one_ne_zero, ne_of_gt hs2pos⟩)]
    rw [one_mul]
    rw [div_lt_iff hs2pos]
    have hgt : (100/99 : ℝ) < Real.sqrt (1049/1024) := by
      rw [Real.lt_sqrt (by norm_num)]
      norm_num
    have hmul := mul_lt_mul_of_pos_left hgt (by norm_num : (0 : ℝ) < 99/100)
    have heq : (99/100 : ℝ) * (100/99) = 1 := by norm_num
    rw [heq] at hmul
    exact hmul

/-- Truncation toward zero moves a rational by less than one. -/
theorem ratTrunc_bound (q : ℚ) :
    |((PatternEngine.ratTrunc q : ℤ) : ℚ) - q| ≤ 1 := by
  unfold PatternEngine.ratTrunc
  split
  · have h1 := Int.floor_le q
    have h2 := Int.lt_floor_add_one q
    rw [abs_le]
    constructor <;> linarith
  · have h1 := Int.le_ceil q
    have h2 := Int.ceil_lt_add_one q
    rw [abs_le]
    constructor <;> linarith

/-- C8 as amended: `cosine_similarity` returns 0 whenever either
argument has zero norm; and the quantisation round trip is accurate
componentwise — each component of `dequantize (quantize v)` is within
one quantisation step (`1/127`) of the corresponding component of
`v / max|v_i|` — but the global bound `cos ≥ 0.99` does not hold for
all non-zero vectors. -/
theorem C8_quant_amended :
    (∀ a b : List ℚ,
      PatternEngine.normSq a = 0 ∨ PatternEngine.normSq b = 0 →
      PatternEngine.cosine_similarity a b = 0) ∧
    (∀ v : List ℚ, 0 < PatternEngine.maxAbs v →
      List.Forall₂ (fun w x => |w - x / PatternEngine.maxAbs v| ≤ 1/127)
        (PatternEngine.dequantize_embedding (PatternEngine.quantize_embedding v)) v) := by
  constructor
  · intro a b h
    unfold PatternEngine.cosine_similarity
    rcases h with h | h
    · rw [if_pos (Or.inl (by rw [h]; norm_num))]
    · rw [if_pos (Or.inr (by rw [h]; norm_num))]
  · intro v hm
    simp only [PatternEngine.quantize_embedding, PatternEngine.dequantize_embedding]
    rw [if_pos hm]
    rw [List.map_map, List.map_map]
    rw [List.forall₂_map_left_iff]
    rw [List.forall₂_same]
    intro x _
    simp only [Function.comp_apply]
    have hb := ratTrunc_bound ((x / PatternEngine.maxAbs v) * 127)
    set y := x / PatternEngine.maxAbs v with hy
    rw [show ((PatternEngine.ratTrunc (y * 127) : ℤ) : ℚ)/127 - y =
        (((PatternEngine.ratTrunc (y * 127) : ℤ) : ℚ) - y * 127)/127 from by ring]
    rw [abs_div, abs_of_pos (by norm_num : (0 : ℚ) < 127)]
    rw [div_le_div_iff (by norm_num) (by norm_num)]
    have habs : |((PatternEngine.ratTrunc (y * 127) : ℤ) : ℚ) - y * 127| ≤ 1 := hb
    linarith

/-- Witness for C8 as amended: zero-norm argument `[0]`, and the round
trip at `v = [2]`. -/
theorem C8_quant_amended_wit :
    PatternEngine.cosine_similarity [0] [1] = 0 ∧
    List.Forall₂ (fun w x => |w - x / PatternEngine.maxAbs [2]| ≤ 1/127)
      (PatternEngine.dequantize_embedding (PatternEngine.quantize_embedding [2])) [2] :=
  ⟨C8_quant_amended.1 [0] [1]
     (Or.inl (by simp [PatternEngine.normSq, PatternEngine.dotQ])),
   C8_quant_amended.2 [2]
     (by norm_num [PatternEngine.maxAbs, List.foldl, abs_of_nonneg])⟩
